import Mathlib

/-!
Verification of the LTC (Linear Timecode) generator.

Shallow embedding of `ltc_generator.py`: the `LTCGenerator` class becomes a
`GenState` record (the configuration captured by `__init__`), the two frame
encoders `_timecode_to_binary` / `_timecode_to_binary_for_60fps` become
functions producing the 80-bit frame as a `List Nat`, the biphase-mark
modulator `_generate_ltc_waveform` produces a `List Int` of unit-amplitude
samples, and the per-frame timecode computation inside `generate_ltc` is
embedded as `generate_ltc_timecode`.
-/

set_option maxHeartbeats 1000000
set_option maxRecDepth 8000

/-- Configuration state captured by `LTCGenerator.__init__`.
The `user_bits` dictionary (`groups`, `binary_groups`, ...) is written by
`set_user_bits` but never read by any encoder or modulator method, so it is
omitted here; the eight nibble attributes `user_bits_field1..8` are the only
user-bit state the encoders consume. -/
structure GenState where
  fps : Nat
  sample_rate : Nat
  user_bits_field1 : Nat
  user_bits_field2 : Nat
  user_bits_field3 : Nat
  user_bits_field4 : Nat
  user_bits_field5 : Nat
  user_bits_field6 : Nat
  user_bits_field7 : Nat
  user_bits_field8 : Nat
  deriving DecidableEq, Repr

/-- A timecode value (hours, minutes, seconds, frame). -/
structure Timecode where
  hours : Nat
  minutes : Nat
  seconds : Nat
  frame : Nat
  deriving DecidableEq, Repr

/-- The eight 4-bit user-bits fields, as recovered by a decoder. -/
structure UserFields where
  field1 : Nat
  field2 : Nat
  field3 : Nat
  field4 : Nat
  field5 : Nat
  field6 : Nat
  field7 : Nat
  field8 : Nat
  deriving DecidableEq, Repr

/-- The Python idiom `1 if (value & (1 << i)) else 0` used throughout both
encoders to extract bit `i` of a nibble. -/
def bit_of (value i : Nat) : Nat :=
  if value &&& (1 <<< i) ≠ 0 then 1 else 0

/-- The fixed sync word appended at bits 64-79 by both encoders. -/
def sync_word : List Nat := [0, 0, 1, 1, 1, 1, 1, 1, 1, 1, 1, 1, 1, 1, 0, 1]

/-- Bits 0-79 of the generic encoder `_timecode_to_binary`, before the final
parity correction: the list literal mirrors, in order, every `append`/`extend`
performed by the Python method. -/
def raw_bits_generic (st : GenState) (hours minutes seconds frames : Nat) : List Nat :=
  let frame_units := frames % 10
  let frame_tens := frames / 10
  let second_units := seconds % 10
  let second_tens := seconds / 10
  let minute_units := minutes % 10
  let minute_tens := minutes / 10
  let hour_units := hours % 10
  let hour_tens := hours / 10
  [ bit_of frame_units 0, bit_of frame_units 1, bit_of frame_units 2, bit_of frame_units 3,
    -- User bits field 1 (bits 04-07)
    bit_of st.user_bits_field1 0, bit_of st.user_bits_field1 1,
    bit_of st.user_bits_field1 2, bit_of st.user_bits_field1 3,
    -- Frame number tens (bits 08-09)
    bit_of frame_tens 0, bit_of frame_tens 1,
    -- drop frame flag (bit 10), color frame flag (bit 11)
    0, 1,
    -- User bits field 2 (bits 12-15)
    bit_of st.user_bits_field2 0, bit_of st.user_bits_field2 1,
    bit_of st.user_bits_field2 2, bit_of st.user_bits_field2 3,
    -- Seconds units (bits 16-19)
    bit_of second_units 0, bit_of second_units 1, bit_of second_units 2, bit_of second_units 3,
    -- User bits field 3 (bits 20-23)
    bit_of st.user_bits_field3 0, bit_of st.user_bits_field3 1,
    bit_of st.user_bits_field3 2, bit_of st.user_bits_field3 3,
    -- Seconds tens (bits 24-26)
    bit_of second_tens 0, bit_of second_tens 1, bit_of second_tens 2,
    -- Polarity correction bit (bit 27), initially 0
    0,
    -- User bits field 4 (bits 28-31)
    bit_of st.user_bits_field4 0, bit_of st.user_bits_field4 1,
    bit_of st.user_bits_field4 2, bit_of st.user_bits_field4 3,
    -- Minutes units (bits 32-35)
    bit_of minute_units 0, bit_of minute_units 1, bit_of minute_units 2, bit_of minute_units 3,
    -- User bits field 5 (bits 36-39)
    bit_of st.user_bits_field5 0, bit_of st.user_bits_field5 1,
    bit_of st.user_bits_field5 2, bit_of st.user_bits_field5 3,
    -- Minutes tens (bits 40-42)
    bit_of minute_tens 0, bit_of minute_tens 1, bit_of minute_tens 2,
    -- Binary group flag (bit 43)
    0,
    -- User bits field 6 (bits 44-47)
    bit_of st.user_bits_field6 0, bit_of st.user_bits_field6 1,
    bit_of st.user_bits_field6 2, bit_of st.user_bits_field6 3,
    -- Hours units (bits 48-51)
    bit_of hour_units 0, bit_of hour_units 1, bit_of hour_units 2, bit_of hour_units 3,
    -- User bits field 7 (bits 52-55)
    bit_of st.user_bits_field7 0, bit_of st.user_bits_field7 1,
    bit_of st.user_bits_field7 2, bit_of st.user_bits_field7 3,
    -- Hours tens (bits 56-57)
    bit_of hour_tens 0, bit_of hour_tens 1,
    -- Clock flag (bit 58), binary group flag (bit 59)
    0, 0,
    -- User bits field 8 (bits 60-63)
    bit_of st.user_bits_field8 0, bit_of st.user_bits_field8 1,
    bit_of st.user_bits_field8 2, bit_of st.user_bits_field8 3 ]
  ++ sync_word

/-- Bits 0-79 of the 60fps encoder `_timecode_to_binary_for_60fps`, before the
final parity correction.  It differs from the generic layout only at bits 4-9:
bit 4 is `1` iff `frames >= 30`, bits 5-7 are `0`, bit 8 is `1` iff the frame
tens digit is 1 or 4, and bit 9 is `1` iff the tens digit is 2 or 5. -/
def raw_bits_60fps (st : GenState) (hours minutes seconds frames : Nat) : List Nat :=
  let frame_units := frames % 10
  let frame_tens := frames / 10
  let second_units := seconds % 10
  let second_tens := seconds / 10
  let minute_units := minutes % 10
  let minute_tens := minutes / 10
  let hour_units := hours % 10
  let hour_tens := hours / 10
  [ bit_of frame_units 0, bit_of frame_units 1, bit_of frame_units 2, bit_of frame_units 3,
    -- bits 04-07: frame >= 30 flag, then three zeros
    if 30 ≤ frames then 1 else 0, 0, 0, 0,
    -- bits 08-09: tens in {1,4} / tens in {2,5}
    if frame_tens = 1 ∨ frame_tens = 4 then 1 else 0,
    if frame_tens = 2 ∨ frame_tens = 5 then 1 else 0,
    -- drop frame flag (bit 10), color frame flag (bit 11)
    0, 1,
    bit_of st.user_bits_field2 0, bit_of st.user_bits_field2 1,
    bit_of st.user_bits_field2 2, bit_of st.user_bits_field2 3,
    bit_of second_units 0, bit_of second_units 1, bit_of second_units 2, bit_of second_units 3,
    bit_of st.user_bits_field3 0, bit_of st.user_bits_field3 1,
    bit_of st.user_bits_field3 2, bit_of st.user_bits_field3 3,
    bit_of second_tens 0, bit_of second_tens 1, bit_of second_tens 2,
    0,
    bit_of st.user_bits_field4 0, bit_of st.user_bits_field4 1,
    bit_of st.user_bits_field4 2, bit_of st.user_bits_field4 3,
    bit_of minute_units 0, bit_of minute_units 1, bit_of minute_units 2, bit_of minute_units 3,
    bit_of st.user_bits_field5 0, bit_of st.user_bits_field5 1,
    bit_of st.user_bits_field5 2, bit_of st.user_bits_field5 3,
    bit_of minute_tens 0, bit_of minute_tens 1, bit_of minute_tens 2,
    0,
    bit_of st.user_bits_field6 0, bit_of st.user_bits_field6 1,
    bit_of st.user_bits_field6 2, bit_of st.user_bits_field6 3,
    bit_of hour_units 0, bit_of hour_units 1, bit_of hour_units 2, bit_of hour_units 3,
    bit_of st.user_bits_field7 0, bit_of st.user_bits_field7 1,
    bit_of st.user_bits_field7 2, bit_of st.user_bits_field7 3,
    bit_of hour_tens 0, bit_of hour_tens 1,
    0, 0,
    bit_of st.user_bits_field8 0, bit_of st.user_bits_field8 1,
    bit_of st.user_bits_field8 2, bit_of st.user_bits_field8 3 ]
  ++ sync_word

/-- The parity-correction step shared by both encoders: if the sum of all 80
bits is odd, set bit 27 to 1. -/
def fix_parity (l : List Nat) : List Nat :=
  if l.sum % 2 = 1 then l.set 27 1 else l

/-- `_timecode_to_binary`: raises (here: `none`) when `frames >= self.fps`,
otherwise the parity-corrected generic 80-bit frame. -/
def timecode_to_binary (st : GenState) (hours minutes seconds frames : Nat) :
    Option (List Nat) :=
  if st.fps ≤ frames then none
  else some (fix_parity (raw_bits_generic st hours minutes seconds frames))

/-- `_timecode_to_binary_for_60fps`: raises (here: `none`) when
`frames >= self.fps`, otherwise the parity-corrected 60fps-variant frame. -/
def timecode_to_binary_for_60fps (st : GenState) (hours minutes seconds frames : Nat) :
    Option (List Nat) :=
  if st.fps ≤ frames then none
  else some (fix_parity (raw_bits_60fps st hours minutes seconds frames))

/-- The encoder dispatch inside `generate_ltc`: the 60fps variant is used
exactly when `self.fps == 60`. -/
def generate_ltc_bits (st : GenState) (hours minutes seconds frames : Nat) :
    Option (List Nat) :=
  if st.fps = 60 then timecode_to_binary_for_60fps st hours minutes seconds frames
  else timecode_to_binary st hours minutes seconds frames

/-- Bit accessor used in the specification statements below. -/
def bitAt (l : List Nat) (i : Nat) : Nat := l.getD i 0

/-- `samples_per_bit` computation of `_generate_ltc_waveform`:
`int(self.sample_rate / (self.fps * self.bits_per_frame))` with
`bits_per_frame = 80` (set once in `__init__` and never changed). -/
def samples_per_bit (st : GenState) : Nat := st.sample_rate / (st.fps * 80)

/-- `half_samples_per_bit = samples_per_bit // 2`. -/
def half_samples_per_bit (st : GenState) : Nat := samples_per_bit st / 2

/-- The biphase-mark loop body of `_generate_ltc_waveform`: for each bit,
emit `half` samples at the current level, flip the level iff the bit is 1,
emit `half` samples at the (possibly flipped) level, then flip
unconditionally. -/
def waveform_go (half : Nat) : List Nat → Int → List Int
  | [], _ => []
  | b :: rest, level =>
    let mid : Int := if b = 1 then -level else level
    List.replicate half level ++ (List.replicate half mid ++ waveform_go half rest (-mid))

/-- `_generate_ltc_waveform`: the waveform for one 80-bit frame, starting at
level `+1`. -/
def generate_ltc_waveform (st : GenState) (ltc_bits : List Nat) : List Int :=
  waveform_go (half_samples_per_bit st) ltc_bits 1

/-- The current level after the biphase-mark loop has consumed a list of bits
(including the final unconditional flip of the last bit cell). -/
def waveform_level : List Nat → Int → Int
  | [], level => level
  | b :: rest, level => waveform_level rest (-(if b = 1 then -level else level))

/-- Modelled from the spec: §4.3 BiphaseModulator, steps 1-4.  Maintain a
current polarity level starting at +1; per bit emit `half` samples at the
current level, flip iff the bit is 1, emit `half` samples at the (possibly
flipped) level, then flip unconditionally. -/
def waveform_spec (half : Nat) (bits : List Nat) : List Int :=
  (bits.foldl
    (fun acc b =>
      let firstHalf := acc.1 ++ List.replicate half acc.2
      let level := if b = 1 then -acc.2 else acc.2
      (firstHalf ++ List.replicate half level, -level))
    (([] : List Int), (1 : Int))).1

/-- The per-bit step of the spec modulator, named so the fold lemma below can
match it syntactically. -/
def waveform_step (half : Nat) (acc : List Int × Int) (b : Nat) : List Int × Int :=
  let firstHalf := acc.1 ++ List.replicate half acc.2
  let level := if b = 1 then -acc.2 else acc.2
  (firstHalf ++ List.replicate half level, -level)

/-- The closed-form timecode computed for iteration `i` inside
`generate_ltc` (source lines 497-500). -/
def generate_ltc_timecode (fps hours minutes seconds frames i : Nat) : Timecode :=
  { frame := (frames + i) % fps
    seconds := (seconds + (frames + i) / fps) % 60
    minutes := (minutes + (seconds + (frames + i) / fps) / 60) % 60
    hours := (hours + (minutes + (seconds + (frames + i) / fps) / 60) / 60) % 24 }

/-- Modelled from the spec: §4.1 TimecodeSequencer `advance(tc, fps)`:
increments `frame`; on overflow (`frame == fps`) resets to 0 and increments
`seconds`; cascades through `minutes`, `hours`, wrapping `hours` modulo 24. -/
def advance (fps : Nat) (tc : Timecode) : Timecode :=
  if tc.frame + 1 = fps then
    if tc.seconds + 1 = 60 then
      if tc.minutes + 1 = 60 then
        { hours := (tc.hours + 1) % 24, minutes := 0, seconds := 0, frame := 0 }
      else
        { hours := tc.hours, minutes := tc.minutes + 1, seconds := 0, frame := 0 }
    else
      { hours := tc.hours, minutes := tc.minutes, seconds := tc.seconds + 1, frame := 0 }
  else
    { hours := tc.hours, minutes := tc.minutes, seconds := tc.seconds, frame := tc.frame + 1 }

/-- Decomposition of a total frame count into a timecode; used to relate the
closed form of `generate_ltc` to iterated `advance`. -/
def tc_of_total (fps total : Nat) : Timecode :=
  { hours := total / fps / 60 / 60 % 24
    minutes := total / fps / 60 % 60
    seconds := total / fps % 60
    frame := total % fps }

/-- `LTCGenerator.__init__` (with `user_bits=None`): stores `fps` and
`sample_rate` unconditionally — there is no sample-rate validation anywhere —
and sets every `user_bits_fieldN` attribute to 0.  In particular the
`user_bits_field1` constructor argument is accepted but never stored
(source line 53 assigns the literal 0), which is why the parameter below is
unused. -/
def ltc_init (fps sample_rate user_bits_field1 : Nat) : GenState :=
  { fps := fps
    sample_rate := sample_rate
    user_bits_field1 := 0
    user_bits_field2 := 0
    user_bits_field3 := 0
    user_bits_field4 := 0
    user_bits_field5 := 0
    user_bits_field6 := 0
    user_bits_field7 := 0
    user_bits_field8 := 0 }

/-- Value of the 4-bit field stored LSB-first at bits `p..p+3`. -/
def nibble_at (l : List Nat) (p : Nat) : Nat :=
  bitAt l p + 2 * bitAt l (p + 1) + 4 * bitAt l (p + 2) + 8 * bitAt l (p + 3)

/-- Modelled from the spec: the decoder reading the field positions of the
§4.2 SMPTE layout table (the inverse of the generic encoding): BCD units
nibbles, binary tens fields, and the eight user-bits nibbles. -/
def decode_frame (l : List Nat) : Timecode × UserFields :=
  ( { hours := 10 * (bitAt l 56 + 2 * bitAt l 57) + nibble_at l 48
      minutes := 10 * (bitAt l 40 + 2 * bitAt l 41 + 4 * bitAt l 42) + nibble_at l 32
      seconds := 10 * (bitAt l 24 + 2 * bitAt l 25 + 4 * bitAt l 26) + nibble_at l 16
      frame := 10 * (bitAt l 8 + 2 * bitAt l 9) + nibble_at l 0 }
  , { field1 := nibble_at l 4
      field2 := nibble_at l 12
      field3 := nibble_at l 20
      field4 := nibble_at l 28
      field5 := nibble_at l 36
      field6 := nibble_at l 44
      field7 := nibble_at l 52
      field8 := nibble_at l 60 } )

/-- Decimal value of a nibble packed LSB-first, as read back by the decoder. -/
def nibble_value (v : Nat) : Nat :=
  bit_of v 0 + 2 * bit_of v 1 + 4 * bit_of v 2 + 8 * bit_of v 3

/-- A concrete configuration used by the witnesses below. -/
def sample_state : GenState := ⟨30, 48000, 5, 6, 7, 8, 9, 10, 11, 12⟩

/-! ### List helper lemmas -/

theorem getD_set_ne {α : Type} (l : List α) (i j : Nat) (a d : α) (hij : i ≠ j) :
    (l.set i a).getD j d = l.getD j d := by
  induction l generalizing i j with
  | nil => simp [List.set]
  | cons x xs ih =>
    cases i with
    | zero =>
      cases j with
      | zero => exact absurd rfl hij
      | succ j2 => simp [List.set, List.getD]
    | succ i2 =>
      cases j with
      | zero => simp [List.set, List.getD]
      | succ j2 =>
        simp only [List.set, List.getD_cons_succ]
        exact ih i2 j2 (fun h => hij (by rw [h]))

theorem sum_set_add (l : List Nat) (n a : Nat) (hn : n < l.length) :
    (l.set n a).sum + l.getD n 0 = l.sum + a := by
  induction l generalizing n with
  | nil => simp at hn
  | cons x xs ih =>
    cases n with
    | zero => simp [List.set, List.getD]; omega
    | succ n2 =>
      simp only [List.set, List.sum_cons, List.getD_cons_succ]
      have := ih n2 (by simpa using hn)
      omega

theorem drop_set_of_lt {α : Type} (l : List α) (i j : Nat) (a : α) (hij : i < j) :
    (l.set i a).drop j = l.drop j := by
  induction l generalizing i j with
  | nil => simp [List.set]
  | cons x xs ih =>
    cases i with
    | zero =>
      cases j with
      | zero => omega
      | succ j2 => simp [List.set]
    | succ i2 =>
      cases j with
      | zero => omega
      | succ j2 =>
        simp only [List.set, List.drop_succ_cons]
        exact ih i2 j2 (by omega)

theorem getD_append_lt {α : Type} (xs ys : List α) (i : Nat) (d : α) (h : i < xs.length) :
    (xs ++ ys).getD i d = xs.getD i d := by
  induction xs generalizing i with
  | nil => simp at h
  | cons x t ih =>
    cases i with
    | zero => simp [List.getD]
    | succ i2 =>
      simp only [List.cons_append, List.getD_cons_succ]
      exact ih i2 (by simpa using h)

theorem getD_append_ge {α : Type} (xs ys : List α) (i : Nat) (d : α) (h : xs.length ≤ i) :
    (xs ++ ys).getD i d = ys.getD (i - xs.length) d := by
  induction xs generalizing i with
  | nil => simp
  | cons x t ih =>
    cases i with
    | zero => simp at h
    | succ i2 =>
      simp only [List.cons_append, List.getD_cons_succ, List.length_cons]
      rw [ih i2 (by simpa using h)]
      simp [Nat.succ_sub_succ]

theorem getD_replicate_lt {α : Type} (n i : Nat) (a d : α) (h : i < n) :
    (List.replicate n a).getD i d = a := by
  induction n generalizing i with
  | zero => omega
  | succ n2 ih =>
    cases i with
    | zero => simp [List.replicate, List.getD]
    | succ i2 =>
      simp only [List.replicate, List.getD_cons_succ]
      exact ih i2 (by omega)

/-! ### Sequencer lemmas -/

theorem succ_div_mod_of_eq (T fps : Nat) (h : T % fps + 1 = fps) :
    (T + 1) % fps = 0 ∧ (T + 1) / fps = T / fps + 1 := by
  have hfps : 0 < fps := by omega
  have hdm := Nat.div_add_mod T fps
  have h1 : T + 1 = fps * (T / fps + 1) := by rw [Nat.mul_add, Nat.mul_one]; omega
  constructor
  · rw [h1]; exact Nat.mul_mod_right fps _
  · rw [h1]; exact Nat.mul_div_cancel_left _ hfps

theorem succ_div_mod_of_ne (T fps : Nat) (hfps : 0 < fps) (hne : T % fps + 1 ≠ fps) :
    (T + 1) % fps = T % fps + 1 ∧ (T + 1) / fps = T / fps := by
  have hdm := Nat.div_add_mod T fps
  have hlt : T % fps < fps := Nat.mod_lt T hfps
  have hlt1 : T % fps + 1 < fps := by omega
  have h1 : T + 1 = T % fps + 1 + fps * (T / fps) := by omega
  constructor
  · rw [h1, Nat.add_mul_mod_self_left]
    exact Nat.mod_eq_of_lt hlt1
  · rw [h1, Nat.add_mul_div_left _ _ hfps, Nat.div_eq_of_lt hlt1, Nat.zero_add]

theorem advance_tc_of_total (fps T : Nat) (hfps : 0 < fps) :
    advance fps (tc_of_total fps T) = tc_of_total fps (T + 1) := by
  by_cases hc : T % fps + 1 = fps
  · obtain ⟨hm0, hd1⟩ := succ_div_mod_of_eq T fps hc
    simp only [advance, tc_of_total, hm0, hd1, if_pos hc]
    by_cases hs : T / fps % 60 + 1 = 60
    · rw [if_pos hs]
      by_cases hmin : T / fps / 60 % 60 + 1 = 60
      · rw [if_pos hmin]
        simp only [Timecode.mk.injEq]
        refine ⟨?_, ?_, ?_, trivial⟩ <;> omega
      · rw [if_neg hmin]
        simp only [Timecode.mk.injEq]
        refine ⟨?_, ?_, ?_, trivial⟩ <;> omega
    · rw [if_neg hs]
      simp only [Timecode.mk.injEq]
      refine ⟨?_, ?_, ?_, trivial⟩ <;> omega
  · obtain ⟨hm1, hd1⟩ := succ_div_mod_of_ne T fps hfps hc
    simp only [advance, tc_of_total, hm1, hd1, if_neg hc]

theorem generate_ltc_timecode_eq_tc_of_total (fps h m s f i : Nat) (hfps : 0 < fps) :
    generate_ltc_timecode fps h m s f i
      = tc_of_total fps (((h * 60 + m) * 60 + s) * fps + f + i) := by
  have harr : ((h * 60 + m) * 60 + s) * fps + f + i
      = f + i + fps * ((h * 60 + m) * 60 + s) := by ring
  have hmod : (((h * 60 + m) * 60 + s) * fps + f + i) % fps = (f + i) % fps := by
    rw [harr, Nat.add_mul_mod_self_left]
  have hdiv : (((h * 60 + m) * 60 + s) * fps + f + i) / fps
      = (f + i) / fps + ((h * 60 + m) * 60 + s) := by
    rw [harr, Nat.add_mul_div_left _ _ hfps]
  simp only [generate_ltc_timecode, tc_of_total, Timecode.mk.injEq, hmod, hdiv]
  refine ⟨?_, ?_, ?_, trivial⟩ <;> omega

theorem tc_of_total_base (fps h m s f : Nat)
    (hh : h < 24) (hm : m < 60) (hs : s < 60) (hf : f < fps) :
    tc_of_total fps (((h * 60 + m) * 60 + s) * fps + f) = ⟨h, m, s, f⟩ := by
  have hfps : 0 < fps := by omega
  have harr : ((h * 60 + m) * 60 + s) * fps + f
      = f + fps * ((h * 60 + m) * 60 + s) := by ring
  have hmod : (((h * 60 + m) * 60 + s) * fps + f) % fps = f := by
    rw [harr, Nat.add_mul_mod_self_left]
    exact Nat.mod_eq_of_lt hf
  have hdiv : (((h * 60 + m) * 60 + s) * fps + f) / fps = (h * 60 + m) * 60 + s := by
    rw [harr, Nat.add_mul_div_left _ _ hfps, Nat.div_eq_of_lt hf, Nat.zero_add]
  simp only [tc_of_total, Timecode.mk.injEq, hmod, hdiv]
  refine ⟨?_, ?_, ?_, trivial⟩ <;> omega

theorem iterate_advance_tc_of_total (fps T i : Nat) (hfps : 0 < fps) :
    (advance fps)^[i] (tc_of_total fps T) = tc_of_total fps (T + i) := by
  induction i with
  | zero => simp
  | succ i2 ih =>
    rw [Function.iterate_succ_apply', ih, advance_tc_of_total fps (T + i2) hfps, Nat.add_assoc]

/-! ### Modulator lemmas -/

theorem waveform_go_length (half : Nat) (bits : List Nat) (level : Int) :
    (waveform_go half bits level).length = bits.length * (2 * half) := by
  induction bits generalizing level with
  | nil => simp [waveform_go]
  | cons b rest ih =>
    simp only [waveform_go, List.length_append, List.length_replicate, List.length_cons, ih]
    ring

theorem waveform_spec_eq_foldl_step (half : Nat) (bits : List Nat) :
    waveform_spec half bits = (bits.foldl (waveform_step half) ([], 1)).1 := rfl

theorem waveform_step_foldl (half : Nat) (bits : List Nat) (w : List Int) (level : Int) :
    (bits.foldl (waveform_step half) (w, level)).1 = w ++ waveform_go half bits level := by
  induction bits generalizing w level with
  | nil => simp [waveform_go]
  | cons b rest ih =>
    simp only [List.foldl_cons, waveform_step, waveform_go, ih, List.append_assoc]

theorem waveform_go_eq_spec (half : Nat) (bits : List Nat) :
    waveform_go half bits 1 = waveform_spec half bits := by
  rw [waveform_spec_eq_foldl_step, waveform_step_foldl, List.nil_append]

theorem waveform_go_zero_half (bits : List Nat) (level : Int) :
    waveform_go 0 bits level = [] := by
  induction bits generalizing level with
  | nil => rfl
  | cons b rest ih => simp [waveform_go, ih]

theorem waveform_level_parity (bits : List Nat) (level : Int)
    (hbin : ∀ b ∈ bits, b ≤ 1) :
    waveform_level bits level
      = if (bits.length + bits.sum) % 2 = 0 then level else -level := by
  induction bits generalizing level with
  | nil => simp [waveform_level]
  | cons b rest ih =>
    have hb : b ≤ 1 := hbin b (by simp)
    have hrest : ∀ x ∈ rest, x ≤ 1 := fun x hx => hbin x (by simp [hx])
    simp only [waveform_level, ih _ hrest, List.sum_cons, List.length_cons]
    by_cases h1 : b = 1
    · simp only [h1, show (if (1 : Nat) = 1 then -level else level) = -level from if_pos rfl]
      split_ifs with hin hout
      all_goals omega
    · simp only [if_neg h1]
      split_ifs with hin hout
      all_goals omega

theorem waveform_level_unit (bits : List Nat) (level : Int) :
    waveform_level bits level = level ∨ waveform_level bits level = -level := by
  induction bits generalizing level with
  | nil => exact Or.inl rfl
  | cons b rest ih =>
    simp only [waveform_level]
    rcases ih (-(if b = 1 then -level else level)) with h | h <;> rw [h] <;>
      by_cases hb : b = 1 <;> simp [hb]

theorem drop_append_length {α : Type} (xs ys : List α) (n : Nat) :
    (xs ++ ys).drop (xs.length + n) = ys.drop n := by
  induction xs with
  | nil => simp
  | cons x t ih => simpa [Nat.succ_add] using ih

theorem waveform_go_drop (half : Nat) (bits : List Nat) (level : Int) (k : Nat)
    (hk : k ≤ bits.length) :
    (waveform_go half bits level).drop (k * (2 * half))
      = waveform_go half (bits.drop k) (waveform_level (bits.take k) level) := by
  induction k generalizing bits level with
  | zero => simp [waveform_level]
  | succ k2 ih =>
    cases bits with
    | nil => simp at hk
    | cons b rest =>
      have hk2 : k2 ≤ rest.length := by simpa using hk
      simp only [waveform_go, List.drop_succ_cons, List.take_succ_cons, waveform_level]
      rw [show (k2 + 1) * (2 * half)
            = (List.replicate half level).length
              + ((List.replicate half (if b = 1 then -level else level)).length
                  + k2 * (2 * half)) by simp; ring,
        drop_append_length, drop_append_length]
      exact ih rest (-(if b = 1 then -level else level)) hk2

theorem getD_drop {α : Type} (l : List α) (n m : Nat) (d : α) :
    (l.drop n).getD m d = l.getD (n + m) d := by
  induction l generalizing n with
  | nil => simp
  | cons x t ih =>
    cases n with
    | zero => simp
    | succ n2 => simpa [Nat.succ_add] using ih n2

theorem waveform_level_append (xs ys : List Nat) (level : Int) :
    waveform_level (xs ++ ys) level = waveform_level ys (waveform_level xs level) := by
  induction xs generalizing level with
  | nil => simp [waveform_level]
  | cons x t ih => simp [waveform_level, ih]

/-- Value of the `j`-th sample of the first half of bit cell `k`: the level on
entry to the cell. -/
theorem waveform_go_cell_first (half : Nat) (bits : List Nat) (level : Int) (k j : Nat)
    (hk : k < bits.length) (hj : j < half) :
    (waveform_go half bits level).getD (k * (2 * half) + j) 0
      = waveform_level (bits.take k) level := by
  rw [← getD_drop, waveform_go_drop half bits level k (le_of_lt hk)]
  cases hdk : bits.drop k with
  | nil =>
    rw [List.drop_eq_nil_iff] at hdk
    omega
  | cons b rest =>
    rw [waveform_go]
    rw [getD_append_lt _ _ _ _ (by simpa using hj)]
    exact getD_replicate_lt half j _ 0 hj

/-- Value of the `j`-th sample of the second half of bit cell `k`: the negation
of the level on entry to cell `k + 1`. -/
theorem waveform_go_cell_second (half : Nat) (bits : List Nat) (level : Int) (k j : Nat)
    (hk : k < bits.length) (hj : j < half) :
    (waveform_go half bits level).getD (k * (2 * half) + half + j) 0
      = -(waveform_level (bits.take (k + 1)) level) := by
  rw [Nat.add_assoc, ← getD_drop, waveform_go_drop half bits level k (le_of_lt hk)]
  cases hdk : bits.drop k with
  | nil =>
    rw [List.drop_eq_nil_iff] at hdk
    omega
  | cons b rest =>
    rw [waveform_go]
    rw [getD_append_ge _ _ _ _ (by simp)]
    rw [List.length_replicate, show half + j - half = j by omega]
    rw [getD_append_lt _ _ _ _ (by simpa using hj)]
    rw [getD_replicate_lt half j _ 0 hj]
    have htake : bits.take (k + 1) = bits.take k ++ [b] := by
      rw [List.take_add bits k 1, hdk]
      simp
    rw [htake, waveform_level_append]
    simp [waveform_level]

theorem bit_of_eq (v i : Nat) : bit_of v i = v / 2 ^ i % 2 := by
  rw [bit_of, Nat.shiftLeft_eq, one_mul, Nat.and_two_pow, ← Nat.toNat_testBit]
  cases hb : v.testBit i <;> simp [hb]

theorem bit_of_zero (v : Nat) : bit_of v 0 = v % 2 := by
  rw [bit_of_eq]; norm_num

theorem bit_of_one (v : Nat) : bit_of v 1 = v / 2 % 2 := by
  rw [bit_of_eq]; norm_num

theorem bit_of_two (v : Nat) : bit_of v 2 = v / 4 % 2 := by
  rw [bit_of_eq]; norm_num

theorem bit_of_three (v : Nat) : bit_of v 3 = v / 8 % 2 := by
  rw [bit_of_eq]; norm_num

/-! ### Parity-correction lemmas -/

theorem bitAt_fix_parity (l : List Nat) (j : Nat) (hj : j ≠ 27) :
    bitAt (fix_parity l) j = bitAt l j := by
  unfold fix_parity bitAt
  split
  · exact getD_set_ne l 27 j 1 0 (fun h => hj h.symm)
  · rfl

theorem length_fix_parity (l : List Nat) : (fix_parity l).length = l.length := by
  unfold fix_parity
  split <;> simp

theorem drop64_fix_parity (l : List Nat) : (fix_parity l).drop 64 = l.drop 64 := by
  unfold fix_parity
  split
  · exact drop_set_of_lt l 27 64 1 (by omega)
  · rfl

theorem sum_fix_parity (l : List Nat) (h27 : l.getD 27 0 = 0) (hlen : 27 < l.length) :
    (fix_parity l).sum % 2 = 0 := by
  unfold fix_parity
  split
  · have := sum_set_add l 27 1 hlen
    omega
  · omega

theorem getD_set_lt {α : Type} (l : List α) (n : Nat) (a d : α) (hn : n < l.length) :
    (l.set n a).getD n d = a := by
  induction l generalizing n with
  | nil => simp at hn
  | cons x t ih =>
    cases n with
    | zero => simp [List.set, List.getD]
    | succ n2 =>
      simp only [List.set, List.getD_cons_succ]
      exact ih n2 (by simpa using hn)

theorem fix_parity_spec (l : List Nat) (h27 : l.getD 27 0 = 0) (hlen : 27 < l.length) :
    fix_parity l = (if l.sum % 2 = 1 then l.set 27 1 else l) ∧
    bitAt (fix_parity l) 27 = (if l.sum % 2 = 1 then 1 else 0) ∧
    (fix_parity l).sum % 2 = 0 ∧
    (∀ j, j ≠ 27 → bitAt (fix_parity l) j = bitAt l j) := by
  refine ⟨rfl, ?_, sum_fix_parity l h27 hlen, fun j hj => bitAt_fix_parity l j hj⟩
  unfold fix_parity bitAt
  split
  · exact getD_set_lt l 27 1 0 hlen
  · exact h27

/-! ### Claim theorems -/

/-- C6: for every timecode input and every fps, each encoder variant fails
(`none`, the embedded `ValueError` / `FrameOutOfRange`) exactly when
`frames >= fps` — in particular at `frames == fps` — and returns an 80-bit
frame when `frames < fps`. -/
theorem c6_frame_out_of_range (st : GenState) (h m s f : Nat) :
    (st.fps ≤ f →
      timecode_to_binary st h m s f = none ∧
      timecode_to_binary_for_60fps st h m s f = none) ∧
    (f < st.fps →
      (∃ l, timecode_to_binary st h m s f = some l ∧ l.length = 80) ∧
      (∃ l, timecode_to_binary_for_60fps st h m s f = some l ∧ l.length = 80)) := by
  constructor
  · intro hge
    constructor
    · rw [timecode_to_binary, if_pos hge]
    · rw [timecode_to_binary_for_60fps, if_pos hge]
  · intro hlt
    constructor
    · refine ⟨_, by rw [timecode_to_binary, if_neg (by omega)], ?_⟩
      rw [length_fix_parity]
      rfl
    · refine ⟨_, by rw [timecode_to_binary_for_60fps, if_neg (by omega)], ?_⟩
      rw [length_fix_parity]
      rfl

/-- Witness for C6 at a concrete configuration: fps = 30, frame 30 is
rejected by both variants and frame 29 is encoded as an 80-bit frame. -/
theorem c6_frame_out_of_range_witness :
    (timecode_to_binary sample_state 1 2 3 30 = none ∧
      timecode_to_binary_for_60fps sample_state 1 2 3 30 = none) ∧
    ((∃ l, timecode_to_binary sample_state 1 2 3 29 = some l ∧ l.length = 80) ∧
      (∃ l, timecode_to_binary_for_60fps sample_state 1 2 3 29 = some l ∧ l.length = 80)) :=
  ⟨(c6_frame_out_of_range sample_state 1 2 3 30).1 (by decide),
   (c6_frame_out_of_range sample_state 1 2 3 29).2 (by decide)⟩

/-- C2: for every input accepted by either encoder variant, the fixed bits of
the 80-bit frame are independent of all data inputs: bit 10 (drop frame) = 0,
bit 11 (color frame) = 1, bit 43 (binary group) = 0, bit 58 (clock) = 0,
bit 59 (binary group) = 0, and bits 64-79 are the sync word
`0011111111111101`. -/
theorem c2_constant_bits (st : GenState) (h m s f : Nat) (hf : f < st.fps) :
    (∃ l, timecode_to_binary st h m s f = some l ∧
      bitAt l 10 = 0 ∧ bitAt l 11 = 1 ∧ bitAt l 43 = 0 ∧
      bitAt l 58 = 0 ∧ bitAt l 59 = 0 ∧ l.drop 64 = sync_word) ∧
    (∃ l, timecode_to_binary_for_60fps st h m s f = some l ∧
      bitAt l 10 = 0 ∧ bitAt l 11 = 1 ∧ bitAt l 43 = 0 ∧
      bitAt l 58 = 0 ∧ bitAt l 59 = 0 ∧ l.drop 64 = sync_word) := by
  constructor
  · refine ⟨_, by rw [timecode_to_binary, if_neg (by omega)], ?_, ?_, ?_, ?_, ?_, ?_⟩
    · rw [bitAt_fix_parity _ _ (by decide)]; rfl
    · rw [bitAt_fix_parity _ _ (by decide)]; rfl
    · rw [bitAt_fix_parity _ _ (by decide)]; rfl
    · rw [bitAt_fix_parity _ _ (by decide)]; rfl
    · rw [bitAt_fix_parity _ _ (by decide)]; rfl
    · rw [drop64_fix_parity]; rfl
  · refine ⟨_, by rw [timecode_to_binary_for_60fps, if_neg (by omega)], ?_, ?_, ?_, ?_, ?_, ?_⟩
    · rw [bitAt_fix_parity _ _ (by decide)]; rfl
    · rw [bitAt_fix_parity _ _ (by decide)]; rfl
    · rw [bitAt_fix_parity _ _ (by decide)]; rfl
    · rw [bitAt_fix_parity _ _ (by decide)]; rfl
    · rw [bitAt_fix_parity _ _ (by decide)]; rfl
    · rw [drop64_fix_parity]; rfl

/-- Witness for C2 at a concrete input. -/
theorem c2_constant_bits_witness :
    (∃ l, timecode_to_binary sample_state 12 34 56 7 = some l ∧
      bitAt l 10 = 0 ∧ bitAt l 11 = 1 ∧ bitAt l 43 = 0 ∧
      bitAt l 58 = 0 ∧ bitAt l 59 = 0 ∧ l.drop 64 = sync_word) ∧
    (∃ l, timecode_to_binary_for_60fps sample_state 12 34 56 7 = some l ∧
      bitAt l 10 = 0 ∧ bitAt l 11 = 1 ∧ bitAt l 43 = 0 ∧
      bitAt l 58 = 0 ∧ bitAt l 59 = 0 ∧ l.drop 64 = sync_word) :=
  c2_constant_bits sample_state 12 34 56 7 (by decide)

/-- C3: every accepted frame of either encoder variant has an even bit sum,
obtained by building the frame with bit 27 = 0 and then setting bit 27 to 1
exactly when the sum of all 80 bits is odd; no other bit is modified by the
correction. -/
theorem c3_even_parity (st : GenState) (h m s f : Nat) (hf : f < st.fps) :
    (∃ l, timecode_to_binary st h m s f = some l ∧
      bitAt (raw_bits_generic st h m s f) 27 = 0 ∧
      l = (if (raw_bits_generic st h m s f).sum % 2 = 1
           then (raw_bits_generic st h m s f).set 27 1
           else raw_bits_generic st h m s f) ∧
      bitAt l 27 = (if (raw_bits_generic st h m s f).sum % 2 = 1 then 1 else 0) ∧
      l.sum % 2 = 0 ∧
      (∀ j, j ≠ 27 → bitAt l j = bitAt (raw_bits_generic st h m s f) j)) ∧
    (∃ l, timecode_to_binary_for_60fps st h m s f = some l ∧
      bitAt (raw_bits_60fps st h m s f) 27 = 0 ∧
      l = (if (raw_bits_60fps st h m s f).sum % 2 = 1
           then (raw_bits_60fps st h m s f).set 27 1
           else raw_bits_60fps st h m s f) ∧
      bitAt l 27 = (if (raw_bits_60fps st h m s f).sum % 2 = 1 then 1 else 0) ∧
      l.sum % 2 = 0 ∧
      (∀ j, j ≠ 27 → bitAt l j = bitAt (raw_bits_60fps st h m s f) j)) := by
  constructor
  · obtain ⟨heq, h27, hsum, hother⟩ :=
      fix_parity_spec (raw_bits_generic st h m s f) rfl (by rw [show
        (raw_bits_generic st h m s f).length = 80 from rfl]; omega)
    exact ⟨_, by rw [timecode_to_binary, if_neg (by omega)], rfl, heq, h27, hsum, hother⟩
  · obtain ⟨heq, h27, hsum, hother⟩ :=
      fix_parity_spec (raw_bits_60fps st h m s f) rfl (by rw [show
        (raw_bits_60fps st h m s f).length = 80 from rfl]; omega)
    exact ⟨_, by rw [timecode_to_binary_for_60fps, if_neg (by omega)], rfl, heq, h27, hsum, hother⟩

/-- Witness for C3 at a concrete input. -/
theorem c3_even_parity_witness :
    (∃ l, timecode_to_binary sample_state 4 5 6 7 = some l ∧
      bitAt (raw_bits_generic sample_state 4 5 6 7) 27 = 0 ∧
      l = (if (raw_bits_generic sample_state 4 5 6 7).sum % 2 = 1
           then (raw_bits_generic sample_state 4 5 6 7).set 27 1
           else raw_bits_generic sample_state 4 5 6 7) ∧
      bitAt l 27 = (if (raw_bits_generic sample_state 4 5 6 7).sum % 2 = 1 then 1 else 0) ∧
      l.sum % 2 = 0 ∧
      (∀ j, j ≠ 27 → bitAt l j = bitAt (raw_bits_generic sample_state 4 5 6 7) j)) ∧
    (∃ l, timecode_to_binary_for_60fps sample_state 4 5 6 7 = some l ∧
      bitAt (raw_bits_60fps sample_state 4 5 6 7) 27 = 0 ∧
      l = (if (raw_bits_60fps sample_state 4 5 6 7).sum % 2 = 1
           then (raw_bits_60fps sample_state 4 5 6 7).set 27 1
           else raw_bits_60fps sample_state 4 5 6 7) ∧
      bitAt l 27 = (if (raw_bits_60fps sample_state 4 5 6 7).sum % 2 = 1 then 1 else 0) ∧
      l.sum % 2 = 0 ∧
      (∀ j, j ≠ 27 → bitAt l j = bitAt (raw_bits_60fps sample_state 4 5 6 7) j)) :=
  c3_even_parity sample_state 4 5 6 7 (by decide)

/-- C1: for every valid timecode, when `fps == 60` the encoder dispatches to
the 60fps variant, whose frame has bit 4 = 1 iff `frame >= 30`, bits 5-7 = 0,
bit 8 = 1 iff the frame-tens digit is 1 or 4, and bit 9 = 1 iff it is 2 or 5;
when `fps != 60` the generic variant packs `user_bits_field1` LSB-first into
bits 4-7 and the frame-tens value in binary into bits 8-9 (bit 8 = LSB). -/
theorem c1_bits_4_to_9 (st : GenState) (h m s f : Nat)
    (hh : h ≤ 23) (hm : m ≤ 59) (hs : s ≤ 59) (hf : f < st.fps) :
    (st.fps = 60 →
      generate_ltc_bits st h m s f = timecode_to_binary_for_60fps st h m s f ∧
      ∃ l, timecode_to_binary_for_60fps st h m s f = some l ∧
        (bitAt l 4 = 1 ↔ 30 ≤ f) ∧ (bitAt l 4 = 0 ↔ f < 30) ∧
        bitAt l 5 = 0 ∧ bitAt l 6 = 0 ∧ bitAt l 7 = 0 ∧
        (bitAt l 8 = 1 ↔ f / 10 = 1 ∨ f / 10 = 4) ∧
        (bitAt l 9 = 1 ↔ f / 10 = 2 ∨ f / 10 = 5)) ∧
    (st.fps ≠ 60 →
      generate_ltc_bits st h m s f = timecode_to_binary st h m s f ∧
      ∃ l, timecode_to_binary st h m s f = some l ∧
        bitAt l 4 = st.user_bits_field1 % 2 ∧
        bitAt l 5 = st.user_bits_field1 / 2 % 2 ∧
        bitAt l 6 = st.user_bits_field1 / 4 % 2 ∧
        bitAt l 7 = st.user_bits_field1 / 8 % 2 ∧
        bitAt l 8 = f / 10 % 2 ∧
        bitAt l 9 = f / 10 / 2 % 2) := by
  constructor
  · intro h60
    refine ⟨by rw [generate_ltc_bits, if_pos h60], _,
      by rw [timecode_to_binary_for_60fps, if_neg (by omega)], ?_, ?_, ?_, ?_, ?_, ?_, ?_⟩
    · rw [bitAt_fix_parity _ _ (by decide),
        show bitAt (raw_bits_60fps st h m s f) 4 = if 30 ≤ f then 1 else 0 from rfl]
      split <;> simp <;> omega
    · rw [bitAt_fix_parity _ _ (by decide),
        show bitAt (raw_bits_60fps st h m s f) 4 = if 30 ≤ f then 1 else 0 from rfl]
      split <;> simp <;> omega
    · rw [bitAt_fix_parity _ _ (by decide)]; rfl
    · rw [bitAt_fix_parity _ _ (by decide)]; rfl
    · rw [bitAt_fix_parity _ _ (by decide)]; rfl
    · rw [bitAt_fix_parity _ _ (by decide), show bitAt (raw_bits_60fps st h m s f) 8
          = if f / 10 = 1 ∨ f / 10 = 4 then 1 else 0 from rfl]
      split <;> simp_all
    · rw [bitAt_fix_parity _ _ (by decide), show bitAt (raw_bits_60fps st h m s f) 9
          = if f / 10 = 2 ∨ f / 10 = 5 then 1 else 0 from rfl]
      split <;> simp_all
  · intro hne
    refine ⟨by rw [generate_ltc_bits, if_neg hne], _,
      by rw [timecode_to_binary, if_neg (by omega)], ?_, ?_, ?_, ?_, ?_, ?_⟩
    · rw [bitAt_fix_parity _ _ (by decide),
        show bitAt (raw_bits_generic st h m s f) 4 = bit_of st.user_bits_field1 0 from rfl,
        bit_of_zero]
    · rw [bitAt_fix_parity _ _ (by decide),
        show bitAt (raw_bits_generic st h m s f) 5 = bit_of st.user_bits_field1 1 from rfl,
        bit_of_one]
    · rw [bitAt_fix_parity _ _ (by decide),
        show bitAt (raw_bits_generic st h m s f) 6 = bit_of st.user_bits_field1 2 from rfl,
        bit_of_two]
    · rw [bitAt_fix_parity _ _ (by decide),
        show bitAt (raw_bits_generic st h m s f) 7 = bit_of st.user_bits_field1 3 from rfl,
        bit_of_three]
    · rw [bitAt_fix_parity _ _ (by decide),
        show bitAt (raw_bits_generic st h m s f) 8 = bit_of (f / 10) 0 from rfl,
        bit_of_zero]
    · rw [bitAt_fix_parity _ _ (by decide),
        show bitAt (raw_bits_generic st h m s f) 9 = bit_of (f / 10) 1 from rfl,
        bit_of_one]

/-- Witness for C1: the 60fps part at fps = 60 with frame 42, and the generic
part at fps = 30 with field1 = 5 and frame 27. -/
theorem c1_bits_4_to_9_witness :
    (generate_ltc_bits ⟨60, 48000, 5, 6, 7, 8, 9, 10, 11, 12⟩ 1 2 3 42
        = timecode_to_binary_for_60fps ⟨60, 48000, 5, 6, 7, 8, 9, 10, 11, 12⟩ 1 2 3 42 ∧
      ∃ l, timecode_to_binary_for_60fps ⟨60, 48000, 5, 6, 7, 8, 9, 10, 11, 12⟩ 1 2 3 42
          = some l ∧
        (bitAt l 4 = 1 ↔ 30 ≤ 42) ∧ (bitAt l 4 = 0 ↔ 42 < 30) ∧
        bitAt l 5 = 0 ∧ bitAt l 6 = 0 ∧ bitAt l 7 = 0 ∧
        (bitAt l 8 = 1 ↔ 42 / 10 = 1 ∨ 42 / 10 = 4) ∧
        (bitAt l 9 = 1 ↔ 42 / 10 = 2 ∨ 42 / 10 = 5)) ∧
    (generate_ltc_bits sample_state 1 2 3 27 = timecode_to_binary sample_state 1 2 3 27 ∧
      ∃ l, timecode_to_binary sample_state 1 2 3 27 = some l ∧
        bitAt l 4 = 5 % 2 ∧ bitAt l 5 = 5 / 2 % 2 ∧
        bitAt l 6 = 5 / 4 % 2 ∧ bitAt l 7 = 5 / 8 % 2 ∧
        bitAt l 8 = 27 / 10 % 2 ∧ bitAt l 9 = 27 / 10 / 2 % 2) :=
  ⟨(c1_bits_4_to_9 ⟨60, 48000, 5, 6, 7, 8, 9, 10, 11, 12⟩ 1 2 3 42
      (by decide) (by decide) (by decide) (by decide)).1 rfl,
   (c1_bits_4_to_9 sample_state 1 2 3 27
      (by decide) (by decide) (by decide) (by decide)).2 (by decide)⟩

/-- C5: for every valid starting timecode (`hours < 24`, `minutes < 60`,
`seconds < 60`, `frames < fps`) and every iteration index `i`, the closed-form
timecode computed inside `generate_ltc` equals `i` applications of the
cascading single-frame `advance`; and advancing `(23,59,59,fps-1)` once wraps
to `(0,0,0,0)`. -/
theorem c5_sequencer_refinement (fps h m s f i : Nat)
    (hh : h < 24) (hm : m < 60) (hs : s < 60) (hf : f < fps) :
    generate_ltc_timecode fps h m s f i = (advance fps)^[i] ⟨h, m, s, f⟩ ∧
    advance fps ⟨23, 59, 59, fps - 1⟩ = ⟨0, 0, 0, 0⟩ := by
  have hfps : 0 < fps := by omega
  constructor
  · rw [generate_ltc_timecode_eq_tc_of_total fps h m s f i hfps,
      show (⟨h, m, s, f⟩ : Timecode) = tc_of_total fps (((h * 60 + m) * 60 + s) * fps + f)
        from (tc_of_total_base fps h m s f hh hm hs hf).symm,
      iterate_advance_tc_of_total fps _ i hfps]
  · rw [advance, if_pos (by simp; omega)]
    norm_num

/-- Witness for C5 at fps = 30, start (1,2,3,4), i = 100. -/
theorem c5_sequencer_refinement_witness :
    generate_ltc_timecode 30 1 2 3 4 100 = (advance 30)^[100] ⟨1, 2, 3, 4⟩ ∧
    advance 30 ⟨23, 59, 59, 30 - 1⟩ = ⟨0, 0, 0, 0⟩ :=
  c5_sequencer_refinement 30 1 2 3 4 100 (by decide) (by decide) (by decide) (by decide)

/-- C4: for every 80-bit frame and any configuration with
`samples_per_bit >= 2`, `_generate_ltc_waveform` returns a buffer of length
exactly `80 * 2 * half_samples_per_bit` whose samples are precisely those of
the biphase-mark algorithm of the spec (start at level +1; per bit: emit the
first half at the current level, flip iff the bit is 1, emit the second half,
then flip unconditionally). -/
theorem c4_waveform_length_and_shape (st : GenState) (bits : List Nat)
    (hlen : bits.length = 80) (hspb : 2 ≤ samples_per_bit st) :
    (generate_ltc_waveform st bits).length = 80 * 2 * half_samples_per_bit st ∧
    generate_ltc_waveform st bits = waveform_spec (half_samples_per_bit st) bits := by
  constructor
  · rw [generate_ltc_waveform, waveform_go_length, hlen]
    ring
  · exact waveform_go_eq_spec (half_samples_per_bit st) bits

/-- Witness for C4: fps = 25, sample rate 4000 (so samples_per_bit = 2,
half = 1) on the all-zero frame. -/
theorem c4_waveform_length_and_shape_witness :
    (generate_ltc_waveform ⟨25, 4000, 0, 0, 0, 0, 0, 0, 0, 0⟩ (List.replicate 80 0)).length
        = 80 * 2 * half_samples_per_bit ⟨25, 4000, 0, 0, 0, 0, 0, 0, 0, 0⟩ ∧
    generate_ltc_waveform ⟨25, 4000, 0, 0, 0, 0, 0, 0, 0, 0⟩ (List.replicate 80 0)
        = waveform_spec (half_samples_per_bit ⟨25, 4000, 0, 0, 0, 0, 0, 0, 0, 0⟩)
            (List.replicate 80 0) :=
  c4_waveform_length_and_shape ⟨25, 4000, 0, 0, 0, 0, 0, 0, 0, 0⟩ (List.replicate 80 0)
    (by decide) (by decide)

/-- C9 counterexample: with fps = 60 and sample_rate = 100 (which satisfies
`sample_rate < 2 * fps * 80`), `__init__` performs no validation at all — the
generator is constructed normally — and the later waveform generation then
produces degenerate empty output, contrary to the claim that such a
configuration is rejected with `SampleRateTooLowError` at construction time. -/
theorem c9_no_samplerate_validation_cex :
    (100 < 2 * 60 * 80) ∧
    ltc_init 60 100 7 = ⟨60, 100, 0, 0, 0, 0, 0, 0, 0, 0⟩ ∧
    generate_ltc_waveform (ltc_init 60 100 7) (List.replicate 80 1) = [] := by
  refine ⟨by decide, by decide, ?_⟩
  decide

/-- C9 amended: construction never rejects a low sample rate; whenever
`sample_rate < 2 * fps * 80`, the constructed generator has
`half_samples_per_bit = 0` and every frame waveform it produces is the empty
buffer (degenerate output). -/
theorem c9_low_samplerate_degenerate (fps sample_rate ubf1 : Nat)
    (hlow : sample_rate < 2 * fps * 80) :
    half_samples_per_bit (ltc_init fps sample_rate ubf1) = 0 ∧
    ∀ bits, generate_ltc_waveform (ltc_init fps sample_rate ubf1) bits = [] := by
  have hfps : 0 < fps := by
    by_contra hz
    omega
  have hspb : samples_per_bit (ltc_init fps sample_rate ubf1) < 2 := by
    rw [samples_per_bit]
    refine Nat.div_lt_of_lt_mul ?_
    simp only [ltc_init]
    omega
  have hhalf : half_samples_per_bit (ltc_init fps sample_rate ubf1) = 0 := by
    rw [half_samples_per_bit]
    omega
  exact ⟨hhalf, fun bits => by rw [generate_ltc_waveform, hhalf, waveform_go_zero_half]⟩

/-- Witness for the amended C9 at fps = 60, sample rate 100. -/
theorem c9_low_samplerate_degenerate_witness :
    half_samples_per_bit (ltc_init 60 100 0) = 0 ∧
    generate_ltc_waveform (ltc_init 60 100 0) [1, 0, 1] = [] :=
  ⟨(c9_low_samplerate_degenerate 60 100 0 (by decide)).1,
   (c9_low_samplerate_degenerate 60 100 0 (by decide)).2 [1, 0, 1]⟩

/-- C10: for every 80-bit binary frame with even bit sum (as every encoder
output is) and any configuration with at least one sample per half bit cell,
the biphase level after all 80 cells (including the final unconditional flip)
returns to the initial +1; consequently each frame waveform starts at +1 and
ends at -1 — so concatenating frame waveforms flips the level at every frame
boundary — and the level also flips at every interior bit-cell boundary. -/
theorem c10_interframe_transitions (st : GenState) (bits : List Nat)
    (hlen : bits.length = 80) (hbin : ∀ b ∈ bits, b ≤ 1) (heven : bits.sum % 2 = 0)
    (hhalf : 1 ≤ half_samples_per_bit st) :
    waveform_level bits 1 = 1 ∧
    (generate_ltc_waveform st bits).getD 0 0 = 1 ∧
    (generate_ltc_waveform st bits).getD
        (80 * (2 * half_samples_per_bit st) - 1) 0 = -1 ∧
    ∀ k, k + 1 < 80 →
      (generate_ltc_waveform st bits).getD
          ((k + 1) * (2 * half_samples_per_bit st) - 1) 0
        ≠ (generate_ltc_waveform st bits).getD
            ((k + 1) * (2 * half_samples_per_bit st)) 0 := by
  have hfinal : waveform_level bits 1 = 1 := by
    rw [waveform_level_parity bits 1 hbin, if_pos (by omega)]
  have htake : bits.take 80 = bits := by
    rw [← hlen]
    exact List.take_length bits
  refine ⟨hfinal, ?_, ?_, ?_⟩
  · have s1 := waveform_go_cell_first (half_samples_per_bit st) bits 1 0 0
      (by omega) (by omega)
    rw [generate_ltc_waveform]
    simpa [waveform_level] using s1
  · have s2 := waveform_go_cell_second (half_samples_per_bit st) bits 1 79
      (half_samples_per_bit st - 1) (by omega) (by omega)
    rw [generate_ltc_waveform,
      show 80 * (2 * half_samples_per_bit st) - 1
        = 79 * (2 * half_samples_per_bit st) + half_samples_per_bit st
          + (half_samples_per_bit st - 1) by omega,
      s2, show (79 : Nat) + 1 = 80 from rfl, htake, hfinal]
  · intro k hk
    have s3 := waveform_go_cell_second (half_samples_per_bit st) bits 1 k
      (half_samples_per_bit st - 1) (by omega) (by omega)
    have s4 := waveform_go_cell_first (half_samples_per_bit st) bits 1 (k + 1) 0
      (by omega) (by omega)
    have hidx : (k + 1) * (2 * half_samples_per_bit st) - 1
        = k * (2 * half_samples_per_bit st) + half_samples_per_bit st
          + (half_samples_per_bit st - 1) := by
      have h2 : (k + 1) * (2 * half_samples_per_bit st)
          = k * (2 * half_samples_per_bit st) + 2 * half_samples_per_bit st :=
        Nat.succ_mul k (2 * half_samples_per_bit st)
      omega
    rw [generate_ltc_waveform, hidx, s3,
      show (k + 1) * (2 * half_samples_per_bit st)
        = (k + 1) * (2 * half_samples_per_bit st) + 0 from (Nat.add_zero _).symm,
      s4]
    rcases waveform_level_unit (bits.take (k + 1)) 1 with hu | hu <;> rw [hu] <;> decide

/-- Witness for C10: fps = 25, sample rate 4000 (half = 1), all-zero frame. -/
theorem c10_interframe_transitions_witness :
    waveform_level (List.replicate 80 0) 1 = 1 ∧
    (generate_ltc_waveform ⟨25, 4000, 0, 0, 0, 0, 0, 0, 0, 0⟩ (List.replicate 80 0)).getD 0 0
        = 1 ∧
    (generate_ltc_waveform ⟨25, 4000, 0, 0, 0, 0, 0, 0, 0, 0⟩ (List.replicate 80 0)).getD
        (80 * (2 * half_samples_per_bit ⟨25, 4000, 0, 0, 0, 0, 0, 0, 0, 0⟩) - 1) 0 = -1 ∧
    ∀ k, k + 1 < 80 →
      (generate_ltc_waveform ⟨25, 4000, 0, 0, 0, 0, 0, 0, 0, 0⟩ (List.replicate 80 0)).getD
          ((k + 1) * (2 * half_samples_per_bit ⟨25, 4000, 0, 0, 0, 0, 0, 0, 0, 0⟩) - 1) 0
        ≠ (generate_ltc_waveform ⟨25, 4000, 0, 0, 0, 0, 0, 0, 0, 0⟩ (List.replicate 80 0)).getD
            ((k + 1) * (2 * half_samples_per_bit ⟨25, 4000, 0, 0, 0, 0, 0, 0, 0, 0⟩)) 0 :=
  c10_interframe_transitions ⟨25, 4000, 0, 0, 0, 0, 0, 0, 0, 0⟩ (List.replicate 80 0)
    (by decide) (by decide) (by decide) (by decide)

theorem two_bit_eq (v : Nat) (hv : v ≤ 3) : bit_of v 0 + 2 * bit_of v 1 = v := by
  rw [bit_of_zero, bit_of_one]
  omega

theorem three_bit_eq (v : Nat) (hv : v ≤ 7) :
    bit_of v 0 + 2 * bit_of v 1 + 4 * bit_of v 2 = v := by
  rw [bit_of_zero, bit_of_one, bit_of_two]
  omega

theorem nibble_value_eq (v : Nat) (hv : v ≤ 15) : nibble_value v = v := by
  rw [nibble_value, bit_of_zero, bit_of_one, bit_of_two, bit_of_three]
  omega

theorem decode_frame_fix_parity (l : List Nat) :
    decode_frame (fix_parity l) = decode_frame l := by
  unfold decode_frame nibble_at
  simp [bitAt_fix_parity]

/-- C7 counterexample: at fps = 60 the encoder uses the 60fps variant, which
does not store `user_bits_field1` at all — two configurations differing only
in field 1 produce the identical frame, so no decoder can recover the original
field-1 nibble — and reading the frame fields at the generic table positions
returns frame = 0 and field1 = 1 for an encoding of frame 30 with all user
bits 0. -/
theorem c7_roundtrip_cex :
    timecode_to_binary_for_60fps ⟨60, 48000, 0, 0, 0, 0, 0, 0, 0, 0⟩ 0 0 0 0
      = timecode_to_binary_for_60fps ⟨60, 48000, 5, 0, 0, 0, 0, 0, 0, 0⟩ 0 0 0 0 ∧
    (⟨60, 48000, 0, 0, 0, 0, 0, 0, 0, 0⟩ : GenState).user_bits_field1
      ≠ (⟨60, 48000, 5, 0, 0, 0, 0, 0, 0, 0⟩ : GenState).user_bits_field1 ∧
    (generate_ltc_bits ⟨60, 48000, 0, 0, 0, 0, 0, 0, 0, 0⟩ 0 0 0 30).map
        (fun l => (decode_frame l).1.frame) = some 0 ∧
    (generate_ltc_bits ⟨60, 48000, 0, 0, 0, 0, 0, 0, 0, 0⟩ 0 0 0 30).map
        (fun l => (decode_frame l).2.field1) = some 1 := by
  decide

/-- C7 amended: for the generic (fps ≠ 60) encoder, for every timecode with
`hours ≤ 23`, `minutes ≤ 59`, `seconds ≤ 59`, `frames < fps`, `frames ≤ 39`
(frame tens fits the 2-bit field) and every configuration whose eight nibbles
are all ≤ 15, decoding the encoded frame at the table positions recovers the
exact timecode and all eight nibbles. -/
theorem c7_roundtrip_generic (st : GenState) (h m s f : Nat)
    (hh : h ≤ 23) (hm : m ≤ 59) (hs : s ≤ 59) (hf : f < st.fps) (hf40 : f ≤ 39)
    (h1 : st.user_bits_field1 ≤ 15) (h2 : st.user_bits_field2 ≤ 15)
    (h3 : st.user_bits_field3 ≤ 15) (h4 : st.user_bits_field4 ≤ 15)
    (h5 : st.user_bits_field5 ≤ 15) (h6 : st.user_bits_field6 ≤ 15)
    (h7 : st.user_bits_field7 ≤ 15) (h8 : st.user_bits_field8 ≤ 15) :
    ∃ l, timecode_to_binary st h m s f = some l ∧
      decode_frame l
        = (⟨h, m, s, f⟩,
           ⟨st.user_bits_field1, st.user_bits_field2, st.user_bits_field3,
            st.user_bits_field4, st.user_bits_field5, st.user_bits_field6,
            st.user_bits_field7, st.user_bits_field8⟩) := by
  refine ⟨_, by rw [timecode_to_binary, if_neg (by omega)], ?_⟩
  rw [decode_frame_fix_parity]
  have hdec : decode_frame (raw_bits_generic st h m s f)
      = (⟨10 * (bit_of (h / 10) 0 + 2 * bit_of (h / 10) 1) + nibble_value (h % 10),
          10 * (bit_of (m / 10) 0 + 2 * bit_of (m / 10) 1 + 4 * bit_of (m / 10) 2)
            + nibble_value (m % 10),
          10 * (bit_of (s / 10) 0 + 2 * bit_of (s / 10) 1 + 4 * bit_of (s / 10) 2)
            + nibble_value (s % 10),
          10 * (bit_of (f / 10) 0 + 2 * bit_of (f / 10) 1) + nibble_value (f % 10)⟩,
         ⟨nibble_value st.user_bits_field1, nibble_value st.user_bits_field2,
          nibble_value st.user_bits_field3, nibble_value st.user_bits_field4,
          nibble_value st.user_bits_field5, nibble_value st.user_bits_field6,
          nibble_value st.user_bits_field7, nibble_value st.user_bits_field8⟩) := rfl
  rw [hdec, Prod.mk.injEq]
  constructor
  · rw [Timecode.mk.injEq]
    refine ⟨?_, ?_, ?_, ?_⟩
    · rw [two_bit_eq _ (by omega), nibble_value_eq _ (by omega)]
      omega
    · rw [three_bit_eq _ (by omega), nibble_value_eq _ (by omega)]
      omega
    · rw [three_bit_eq _ (by omega), nibble_value_eq _ (by omega)]
      omega
    · rw [two_bit_eq _ (by omega), nibble_value_eq _ (by omega)]
      omega
  · rw [UserFields.mk.injEq]
    exact ⟨nibble_value_eq _ h1, nibble_value_eq _ h2, nibble_value_eq _ h3,
      nibble_value_eq _ h4, nibble_value_eq _ h5, nibble_value_eq _ h6,
      nibble_value_eq _ h7, nibble_value_eq _ h8⟩

/-- Witness for the amended C7 at a concrete input. -/
theorem c7_roundtrip_generic_witness :
    ∃ l, timecode_to_binary sample_state 12 34 56 21 = some l ∧
      decode_frame l = (⟨12, 34, 56, 21⟩, ⟨5, 6, 7, 8, 9, 10, 11, 12⟩) :=
  c7_roundtrip_generic sample_state 12 34 56 21 (by decide) (by decide) (by decide)
    (by decide) (by decide) (by decide) (by decide) (by decide) (by decide)
    (by decide) (by decide) (by decide) (by decide)

/-- C8: evaluation of the code at the failing input.  A generator constructed
with `user_bits_field1 = 5` under a generic (fps = 25) profile still has the
stored field equal to 0 — `__init__` discards its `user_bits_field1`
argument — so bits 4-7 of every encoded frame are `0,0,0,0` instead of the
claimed `1,0,1,0`; the encoder itself does pack a stored field value of 5 as
`1,0,1,0` LSB-first, pinpointing the constructor as the broken step. -/
theorem c8_field1_dropped_by_init :
    (ltc_init 25 48000 5).user_bits_field1 = 0 ∧
    (timecode_to_binary (ltc_init 25 48000 5) 0 0 0 0).map (fun l => (l.drop 4).take 4)
      = some [0, 0, 0, 0] ∧
    (timecode_to_binary ⟨25, 48000, 5, 0, 0, 0, 0, 0, 0, 0⟩ 0 0 0 0).map
        (fun l => (l.drop 4).take 4) = some [1, 0, 1, 0] := by
  decide
